import Mathlib

/-!
Verification development for the Calendar-assistant bot (src/main.py).

The Python program is shallowly embedded below.  Wall-clock datetimes that the
parser and validator manipulate are modelled by the structure DT (year, month,
day, hour, minute, second), with the calendar arithmetic of the Python datetime
library (leap years, month lengths, day rollover) spelled out.  Instants seen
by the database and the notification scheduler are modelled as integers
(minutes on a global timeline), since that code only compares instants and
subtracts lead minutes.  External library routines that the source calls with
no structural contract of their own are passed in as explicit parameters:
datetime.fromisoformat becomes a parameter parseIso, and the
difflib.SequenceMatcher similarity score becomes a parameter ratioFn.
-/

/-- Leap-year test of the Gregorian calendar, as used by the Python datetime
library that main.py relies on. -/
def isLeap (y : Nat) : Bool :=
  decide (y % 4 = 0 ∧ (y % 100 ≠ 0 ∨ y % 400 = 0))

/-- Number of days in a month, as validated by the Python datetime constructor. -/
def daysInMonth (y m : Nat) : Nat :=
  if m = 2 then (if isLeap y then 29 else 28)
  else if m = 4 ∨ m = 6 ∨ m = 9 ∨ m = 11 then 30 else 31

/-- Wall-clock datetime at second precision, the shape produced by
datetime.fromisoformat in main.py (the bot always formats minutes, so
microseconds are dropped from the model). -/
structure DT where
  year : Nat
  month : Nat
  day : Nat
  hour : Nat
  minute : Nat
  second : Nat
deriving DecidableEq

/-- Lexicographic comparison of datetimes, the order the Python datetime
class implements. -/
def DT.leb (a b : DT) : Bool :=
  if a.year = b.year then
    if a.month = b.month then
      if a.day = b.day then
        if a.hour = b.hour then
          if a.minute = b.minute then decide (a.second ≤ b.second)
          else decide (a.minute < b.minute)
        else decide (a.hour < b.hour)
      else decide (a.day < b.day)
    else decide (a.month < b.month)
  else decide (a.year < b.year)

/-- Validity of a year-month-day triple, the check performed by the Python
datetime constructor (which raises ValueError otherwise). -/
def isValidYMD (y m d : Nat) : Bool :=
  decide (1 ≤ y ∧ y ≤ 9999 ∧ 1 ≤ m ∧ m ≤ 12 ∧ 1 ≤ d) && decide (d ≤ daysInMonth y m)

/-- Model of datetime.replace with a new year: returns none exactly when the
Python call raises ValueError (for example Feb 29 moved to a non-leap year). -/
def replaceYear (y : Nat) (dt : DT) : Option DT :=
  if isValidYMD y dt.month dt.day then some { dt with year := y } else none

/-- Model of adding timedelta(days=1): the date rolls over month and year
boundaries, the time of day is unchanged. -/
def addOneDay (dt : DT) : DT :=
  if dt.day < daysInMonth dt.year dt.month then { dt with day := dt.day + 1 }
  else if dt.month < 12 then { dt with month := dt.month + 1, day := 1 }
  else { dt with year := dt.year + 1, month := 1, day := 1 }

/-- Two-digit zero padding, as in the %02d and %M style format codes. -/
def pad2 (n : Nat) : String := if n < 10 then "0" ++ toString n else toString n

/-- Four-digit zero padding, as in the %Y format code. -/
def pad4 (n : Nat) : String :=
  if n < 10 then "000" ++ toString n
  else if n < 100 then "00" ++ toString n
  else if n < 1000 then "0" ++ toString n
  else toString n

/-- Model of strftime with the %Y-%m-%d format used throughout main.py. -/
def fmtDate (y m d : Nat) : String := pad4 y ++ "-" ++ pad2 m ++ "-" ++ pad2 d

/-- Model of datetime.isoformat for datetimes with zero microseconds. -/
def isoformat (dt : DT) : String :=
  fmtDate dt.year dt.month dt.day ++ "T" ++ pad2 dt.hour ++ ":" ++ pad2 dt.minute
    ++ ":" ++ pad2 dt.second

/-- Past-time correction of validate_and_parse_json (main.py lines 341 to 348),
applied when the parsed datetime dt is not strictly in the future.  Returns
none exactly when one of the datetime.replace calls raises ValueError, which
the surrounding except clause turns into a rejection of the whole payload. -/
def futureCorrect (now dt : DT) : Option DT :=
  if dt.year < now.year then
    match replaceYear now.year dt with
    | none => none
    | some d1 => if d1.leb now then replaceYear (now.year + 1) d1 else some d1
  else some (addOneDay dt)

/-- Structured command record decoded from the model reply, the dictionary
shape that validate_and_parse_json inspects.  Absent JSON keys are none. -/
structure Payload where
  command : Option String
  event : Option String
  datetime : Option String
  new_datetime : Option String
  new_event : Option String
deriving DecidableEq

/-- Python truthiness of an optional string field: a missing key and an empty
string are both falsy. -/
def truthyS : Option String → Bool
  | none => false
  | some s => s != ""

/-- List of valid commands from main.py lines 315 to 318. -/
def validCommands : List String :=
  ["create", "delete", "change_time", "change_date", "change_description",
   "change_full", "list"]

/-- Validation of one timestamp-bearing field (main.py lines 335 to 354): a
present non-empty field must parse via fromisoformat (modelled by the
parameter parseIso), past instants get the future correction, and a parse or
correction failure rejects the payload.  The outer option is the verdict, the
inner option is the possibly rewritten field value. -/
def validateField (parseIso : String → Option DT) (now : DT) (v : Option String) :
    Option (Option String) :=
  match v with
  | none => some none
  | some s =>
    if s = "" then some (some s)
    else
      match parseIso s with
      | none => none
      | some dt =>
        if dt.leb now then
          match futureCorrect now dt with
          | none => none
          | some d => some (some (isoformat d))
        else some (some s)

/-- Model of validate_and_parse_json (main.py lines 302 to 363) from the point
where the reply text has been decoded into a Payload record: checks the
command against the valid list, requires a truthy event field for every
command except list, and validates the datetime and new_datetime fields. -/
def validate_and_parse_json (parseIso : String → Option DT) (now : DT)
    (p : Payload) : Option Payload :=
  match p.command with
  | none => none
  | some c =>
    if c ∈ validCommands then
      if c = "create" ∧ ¬ truthyS p.event then none
      else if c ∈ ["delete", "change_time", "change_date", "change_description",
                   "change_full"] ∧ ¬ truthyS p.event then none
      else
        match validateField parseIso now p.datetime with
        | none => none
        | some dv =>
          match validateField parseIso now p.new_datetime with
          | none => none
          | some nv => some { p with datetime := dv, new_datetime := nv }
    else none

/-- Strip of leading and trailing whitespace on a character list, modelling the
Python str.strip call in parse_time_input. -/
def trimChars (l : List Char) : List Char :=
  ((l.dropWhile Char.isWhitespace).reverse.dropWhile Char.isWhitespace).reverse

/-- Model of the Python str.lower mapping on one character, implementing the
Unicode simple lowercase for the ranges the bot actually processes: Basic
Latin A to Z, the Latin-1 uppercase letters, and the full Cyrillic uppercase
block (including the Ё row), so that the capitalized Russian words produced by
users and by the model prompt examples lowercase exactly as in the source.
Characters outside these ranges are unchanged. -/
def pyLowerChar (c : Char) : Char :=
  if 'A' ≤ c ∧ c ≤ 'Z' then Char.ofNat (c.toNat + 32)
  else if 0xC0 ≤ c.toNat ∧ c.toNat ≤ 0xDE ∧ c.toNat ≠ 0xD7 then
    Char.ofNat (c.toNat + 32)
  else if 0x400 ≤ c.toNat ∧ c.toNat ≤ 0x40F then Char.ofNat (c.toNat + 0x50)
  else if 0x410 ≤ c.toNat ∧ c.toNat ≤ 0x42F then Char.ofNat (c.toNat + 32)
  else c

/-- Model of str.lower on a whole string. -/
def pyLower (s : String) : String := String.mk (s.toList.map pyLowerChar)

/-- Split of a character list at every occurrence of a separator character,
mirroring the way the anchored regexes of parse_time_input cut their input at
the colon or dot.  Like str.split with a separator, the result is never empty
and neighbouring separators give empty parts. -/
def charSplit (sep : Char) : List Char → List (List Char)
  | [] => [[]]
  | c :: rest =>
    if c = sep then [] :: charSplit sep rest
    else
      match charSplit sep rest with
      | h :: t => (c :: h) :: t
      | [] => [[c]]

/-- Numeric value of a non-empty all-digit character group, the int conversion
applied to a regex group in parse_time_input. -/
def digitsVal (l : List Char) : Option Nat :=
  if l ≠ [] ∧ l.all Char.isDigit then
    some (l.foldl (fun acc c => acc * 10 + (c.toNat - 48)) 0)
  else none

/-- Match of the anchored regex for one or two digits, a colon, then exactly
two digits (main.py line 220). -/
def matchTimeHM (cs : List Char) : Option (Nat × Nat) :=
  match charSplit ':' cs with
  | [h, m] =>
    if 1 ≤ h.length ∧ h.length ≤ 2 ∧ m.length = 2 then
      match digitsVal h, digitsVal m with
      | some hv, some mv => some (hv, mv)
      | _, _ => none
    else none
  | _ => none

/-- Match of the anchored regex for a bare one or two digit number
(main.py line 229). -/
def matchHourOnly (cs : List Char) : Option Nat :=
  if 1 ≤ cs.length ∧ cs.length ≤ 2 then digitsVal cs else none

/-- Match of the anchored regex for one or two digits, a dot, then one or two
digits (main.py line 247). -/
def matchDDMM (cs : List Char) : Option (Nat × Nat) :=
  match charSplit '.' cs with
  | [d, m] =>
    if (1 ≤ d.length ∧ d.length ≤ 2) ∧ (1 ≤ m.length ∧ m.length ≤ 2) then
      match digitsVal d, digitsVal m with
      | some dv, some mv => some (dv, mv)
      | _, _ => none
    else none
  | _ => none

/-- Match of the anchored regex for day, month and a four digit year separated
by dots (main.py line 259). -/
def matchDDMMYYYY (cs : List Char) : Option (Nat × Nat × Nat) :=
  match charSplit '.' cs with
  | [d, m, y] =>
    if (1 ≤ d.length ∧ d.length ≤ 2) ∧ (1 ≤ m.length ∧ m.length ≤ 2)
        ∧ y.length = 4 then
      match digitsVal d, digitsVal m, digitsVal y with
      | some dv, some mv, some yv => some (dv, mv, yv)
      | _, _, _ => none
    else none
  | _ => none

/-- First branch of parse_time_input: a bare HH:MM time with bounds checks,
returned as a zero padded time tag (main.py lines 220 to 226). -/
def tryTimeHM (cs : List Char) : Option (String × String) :=
  match matchTimeHM cs with
  | some (h, m) =>
    if h ≤ 23 ∧ m ≤ 59 then some ("time", pad2 h ++ ":" ++ pad2 m) else none
  | none => none

/-- Second branch of parse_time_input: a bare hour number, padded with zero
minutes (main.py lines 229 to 233). -/
def tryHourOnly (cs : List Char) : Option (String × String) :=
  match matchHourOnly cs with
  | some h => if h ≤ 23 then some ("time", pad2 h ++ ":00") else none
  | none => none

/-- Third branch of parse_time_input: the fixed Russian words for today,
tomorrow and the day after, resolved against the current date
(main.py lines 236 to 244). -/
def tryFixedDates (now : DT) (cs : List Char) : Option (String × String) :=
  if cs = "сегодня".toList then
    some ("date", fmtDate now.year now.month now.day)
  else if cs = "завтра".toList then
    let d1 := addOneDay now
    some ("date", fmtDate d1.year d1.month d1.day)
  else if cs = "послезавтра".toList then
    let d2 := addOneDay (addOneDay now)
    some ("date", fmtDate d2.year d2.month d2.day)
  else none

/-- Fourth branch of parse_time_input: a DD.MM date without year, taken in the
current year and pushed to the next year when not strictly in the future; a
ValueError from the datetime constructor or from the year replacement skips
the pattern (main.py lines 247 to 257). -/
def tryDDMM (now : DT) (cs : List Char) : Option (String × String) :=
  match matchDDMM cs with
  | some (d, mo) =>
    if isValidYMD now.year mo d then
      let p : DT := ⟨now.year, mo, d, 0, 0, 0⟩
      if p.leb now then
        if isValidYMD (now.year + 1) mo d then
          some ("date", fmtDate (now.year + 1) mo d)
        else none
      else some ("date", fmtDate now.year mo d)
    else none
  | none => none

/-- Fifth branch of parse_time_input: a full DD.MM.YYYY date, kept as given
when the datetime constructor accepts it (main.py lines 259 to 266). -/
def tryDDMMYYYY (cs : List Char) : Option (String × String) :=
  match matchDDMMYYYY cs with
  | some (d, mo, y) =>
    if isValidYMD y mo d then some ("date", fmtDate y mo d) else none
  | none => none

/-- Model of parse_time_input (main.py lines 215 to 268): the stripped and
lowercased text is run through the pattern branches in source order, the first
branch that produces a value wins, and a branch whose bounds checks fail falls
through to the later branches exactly as in the source (where the later
anchored regexes then also fail to match). -/
def parse_time_input (now : DT) (text : String) : Option (String × String) :=
  let cs := trimChars (text.toList.map pyLowerChar)
  tryTimeHM cs <|> tryHourOnly cs <|> tryFixedDates now cs <|> tryDDMM now cs
    <|> tryDDMMYYYY cs

/-- The split of a character list is never the empty list of parts. -/
theorem charSplit_ne_nil (sep : Char) (cs : List Char) : charSplit sep cs ≠ [] := by
  cases cs with
  | nil => simp [charSplit]
  | cons c rest =>
    simp only [charSplit]
    split
    · simp
    · split <;> simp

/-- A split with exactly one part means the separator does not occur and the
part is the whole input. -/
theorem charSplit_single (sep : Char) :
    ∀ (cs x : List Char), charSplit sep cs = [x] → cs = x := by
  intro cs
  induction cs with
  | nil =>
    intro x h
    injection h
  | cons c rest ih =>
    intro x h
    simp only [charSplit] at h
    by_cases hc : c = sep
    · rw [if_pos hc] at h
      simp only [List.cons.injEq] at h
      exact absurd h.2 (charSplit_ne_nil _ _)
    · rw [if_neg hc] at h
      cases hr : charSplit sep rest with
      | nil => exact absurd hr (charSplit_ne_nil _ _)
      | cons a t =>
        rw [hr] at h
        simp only [List.cons.injEq] at h
        obtain ⟨hx, ht⟩ := h
        subst ht
        have : rest = a := ih a hr
        rw [this, hx]

/-- A split with exactly two parts recovers the input as first part, separator,
second part. -/
theorem charSplit_pair (sep : Char) :
    ∀ (cs a b : List Char), charSplit sep cs = [a, b] → cs = a ++ sep :: b := by
  intro cs
  induction cs with
  | nil =>
    intro a b h
    simp only [charSplit, List.cons.injEq] at h
    exact absurd h.2 (by simp)
  | cons c rest ih =>
    intro a b h
    simp only [charSplit] at h
    by_cases hc : c = sep
    · rw [if_pos hc] at h
      simp only [List.cons.injEq] at h
      obtain ⟨ha, hr⟩ := h
      have : rest = b := charSplit_single sep rest b hr
      rw [← ha, this, hc]
      rfl
    · rw [if_neg hc] at h
      cases hr : charSplit sep rest with
      | nil => exact absurd hr (charSplit_ne_nil _ _)
      | cons x t =>
        rw [hr] at h
        simp only [List.cons.injEq] at h
        obtain ⟨hx, ht⟩ := h
        subst ht
        have hrest : rest = x ++ sep :: b := ih x b hr
        rw [← hx, hrest]
        rfl

/-- Every part of a split is free of the separator. -/
theorem charSplit_parts (sep : Char) :
    ∀ (cs : List Char), ∀ p ∈ charSplit sep cs, sep ∉ p := by
  intro cs
  induction cs with
  | nil =>
    intro p hp
    simp only [charSplit, List.mem_singleton] at hp
    subst hp
    simp
  | cons c rest ih =>
    intro p hp
    simp only [charSplit] at hp
    by_cases hc : c = sep
    · rw [if_pos hc] at hp
      rcases List.mem_cons.mp hp with h | h
      · subst h; simp
      · exact ih p h
    · rw [if_neg hc] at hp
      cases hr : charSplit sep rest with
      | nil => exact absurd hr (charSplit_ne_nil _ _)
      | cons x t =>
        rw [hr] at hp
        rcases List.mem_cons.mp hp with h | h
        · subst h
          intro hmem
          rcases List.mem_cons.mp hmem with h' | h'
          · exact hc h'.symm
          · exact ih x (by rw [hr]; exact List.mem_cons_self _ _) h'
        · exact ih p (by rw [hr]; exact List.mem_cons_of_mem _ h)

/-- When the separator does not occur, the split is the whole input as the one
part. -/
theorem charSplit_of_not_mem (sep : Char) :
    ∀ (cs : List Char), sep ∉ cs → charSplit sep cs = [cs] := by
  intro cs
  induction cs with
  | nil => intro _; rfl
  | cons c rest ih =>
    intro h
    have hc : ¬ c = sep := fun he => h (he ▸ List.mem_cons_self _ _)
    have hrest : sep ∉ rest := fun hm => h (List.mem_cons_of_mem _ hm)
    simp only [charSplit]
    rw [if_neg hc, ih hrest]

/-- A successful digit-group conversion means every character is a digit. -/
theorem digitsVal_all {l : List Char} {v : Nat} (h : digitsVal l = some v) :
    l.all Char.isDigit = true := by
  unfold digitsVal at h
  split at h
  · next hcond => exact hcond.2
  · exact absurd h (by simp)

/-- A successful DD.MM match exposes the input as two all-digit groups around
one dot. -/
theorem matchDDMM_shape {cs : List Char} {d m : Nat}
    (h : matchDDMM cs = some (d, m)) :
    ∃ a b, charSplit '.' cs = [a, b] ∧ a.all Char.isDigit = true ∧
      b.all Char.isDigit = true := by
  unfold matchDDMM at h
  split at h
  next a b heq =>
    split at h
    · cases hda : digitsVal a with
      | none => rw [hda] at h; simp at h
      | some dv =>
        cases hdb : digitsVal b with
        | none => rw [hda, hdb] at h; simp at h
        | some mv => exact ⟨a, b, heq, digitsVal_all hda, digitsVal_all hdb⟩
    · simp at h
  next => simp at h

/-- On an input matched by the DD.MM regex, every earlier pattern branch of
parse_time_input fails, as does the later DD.MM.YYYY branch. -/
theorem ddmm_blockers {cs : List Char} {d m : Nat}
    (h : matchDDMM cs = some (d, m)) :
    tryTimeHM cs = none ∧ tryHourOnly cs = none ∧
      (∀ now, tryFixedDates now cs = none) ∧ tryDDMMYYYY cs = none := by
  obtain ⟨a, b, hsp, hda, hdb⟩ := matchDDMM_shape h
  have hcs : cs = a ++ '.' :: b := charSplit_pair '.' cs a b hsp
  have hdot : '.' ∈ cs := by
    rw [hcs]; exact List.mem_append_right _ (List.mem_cons_self _ _)
  have hcolon : ':' ∉ cs := by
    rw [hcs]
    intro hmem
    rcases List.mem_append.mp hmem with h1 | h1
    · exact absurd (List.all_eq_true.mp hda _ h1) (by decide)
    · rcases List.mem_cons.mp h1 with h2 | h2
      · exact absurd h2 (by decide)
      · exact absurd (List.all_eq_true.mp hdb _ h2) (by decide)
  have hdv : digitsVal cs = none := by
    unfold digitsVal
    rw [if_neg]
    intro hcond
    exact absurd (List.all_eq_true.mp hcond.2 _ hdot) (by decide)
  refine ⟨?_, ?_, ?_, ?_⟩
  · unfold tryTimeHM matchTimeHM
    rw [charSplit_of_not_mem ':' cs hcolon]
  · have hm : matchHourOnly cs = none := by
      unfold matchHourOnly
      rw [hdv]
      split <;> rfl
    unfold tryHourOnly
    rw [hm]
  · intro now
    have h1 : ¬ (cs = "сегодня".toList) := fun he => absurd (he ▸ hdot) (by decide)
    have h2 : ¬ (cs = "завтра".toList) := fun he => absurd (he ▸ hdot) (by decide)
    have h3 : ¬ (cs = "послезавтра".toList) := fun he => absurd (he ▸ hdot) (by decide)
    unfold tryFixedDates
    rw [if_neg h1, if_neg h2, if_neg h3]
  · unfold tryDDMMYYYY matchDDMMYYYY
    rw [hsp]

/-- C8: the claim asserts that a bare HH:MM input is resolved to today at that
time or rolled to tomorrow when already past.  In the code parse_time_input
returns only the time-of-day tag, with no date and no dependence on the
current instant: at 16:00 the already-past input 15:30 yields exactly the same
time-only value as at 10:00, and the tag is time, not date. -/
theorem C8_counterexample :
    parse_time_input ⟨2025, 6, 15, 16, 0, 0⟩ "15:30" = some ("time", "15:30")
    ∧ parse_time_input ⟨2025, 6, 15, 10, 0, 0⟩ "15:30" = some ("time", "15:30") := by
  constructor <;> rfl

/-- C8 (amended): for every valid bare HH:MM input the parser returns the pair
of the time tag and the zero padded HH:MM string, for every current instant
alike; no today or tomorrow resolution happens inside parse_time_input. -/
theorem C8_bare_time_parsing (now : DT) (text : String) (h m : Nat)
    (hm : matchTimeHM (trimChars (text.toList.map pyLowerChar)) = some (h, m))
    (hh : h ≤ 23) (hmm : m ≤ 59) :
    parse_time_input now text = some ("time", pad2 h ++ ":" ++ pad2 m) := by
  have ht : tryTimeHM (trimChars (text.toList.map pyLowerChar))
      = some ("time", pad2 h ++ ":" ++ pad2 m) := by
    unfold tryTimeHM
    rw [hm]
    simp [hh, hmm]
  simp only [parse_time_input]
  rw [ht]
  rfl

/-- C8 witness: the amended statement applied to the concrete input 15:30 at a
concrete instant. -/
theorem C8_witness :
    parse_time_input ⟨2025, 6, 15, 16, 0, 0⟩ "15:30"
      = some ("time", pad2 15 ++ ":" ++ pad2 30) :=
  C8_bare_time_parsing ⟨2025, 6, 15, 16, 0, 0⟩ "15:30" 15 30 (by decide)
    (by decide) (by decide)

/-- C10: the claim asserts that every valid DD.MM date in the current year
that is not in the future comes back with the year advanced by one.  For the
input 29.02 observed on 2024-06-01 the current year 2024 is a leap year, the
date 2024-02-29 is valid and in the past, but the year replacement lands on
the nonexistent 2025-02-29, so the code raises ValueError internally and
produces no parse at all instead of the advanced date. -/
theorem C10_counterexample :
    parse_time_input ⟨2024, 6, 1, 12, 0, 0⟩ "29.02" = none
    ∧ isValidYMD 2024 2 29 = true
    ∧ (⟨2024, 2, 29, 0, 0, 0⟩ : DT).leb ⟨2024, 6, 1, 12, 0, 0⟩ = true := by
  refine ⟨by rfl, by decide, by decide⟩

/-- C10 (amended): a DD.MM input yields the date in the current year when that
date at midnight is strictly in the future, the date with the year advanced by
one when the current-year date is not in the future and the advanced date
still exists, and no parse when the day-month pair is invalid in the current
year or when the year advance lands on a nonexistent date; the function never
raises. -/
theorem C10_ddmm_parsing (now : DT) (text : String) (d mo : Nat)
    (h : matchDDMM (trimChars (text.toList.map pyLowerChar)) = some (d, mo)) :
    parse_time_input now text =
      if isValidYMD now.year mo d then
        if DT.leb ⟨now.year, mo, d, 0, 0, 0⟩ now then
          if isValidYMD (now.year + 1) mo d then
            some ("date", fmtDate (now.year + 1) mo d)
          else none
        else some ("date", fmtDate now.year mo d)
      else none := by
  obtain ⟨h1, h2, h3, h5⟩ := ddmm_blockers h
  simp only [parse_time_input]
  rw [h1, Option.none_orElse, h2, Option.none_orElse, h3 now, Option.none_orElse]
  simp only [tryDDMM, h]
  by_cases hv : isValidYMD now.year mo d = true
  · rw [if_pos hv]
    by_cases hl : DT.leb ⟨now.year, mo, d, 0, 0, 0⟩ now = true
    · rw [if_pos hl]
      by_cases hv2 : isValidYMD (now.year + 1) mo d = true
      · rw [if_pos hv2]
        rfl
      · rw [if_neg hv2, Option.none_orElse, h5]
    · rw [if_neg hl]
      rfl
  · rw [if_neg hv, Option.none_orElse, h5]

/-- C10 witness: the amended statement applied to the concrete input 25.12 at
a concrete instant in mid 2025, where the date is still ahead and is returned
in the current year. -/
theorem C10_witness :
    parse_time_input ⟨2025, 6, 15, 16, 0, 0⟩ "25.12"
      = if isValidYMD 2025 12 25 then
          if DT.leb ⟨2025, 12, 25, 0, 0, 0⟩ ⟨2025, 6, 15, 16, 0, 0⟩ then
            if isValidYMD 2026 12 25 then some ("date", fmtDate 2026 12 25)
            else none
          else some ("date", fmtDate 2025 12 25)
        else none :=
  C10_ddmm_parsing ⟨2025, 6, 15, 16, 0, 0⟩ "25.12" 25 12 (by decide)

/-- Concrete stand-in for datetime.fromisoformat covering the one string used
by the C1 counterexample. -/
def parseIsoC1 : String → Option DT :=
  fun s => if s = "2024-02-29T10:00" then some ⟨2024, 2, 29, 10, 0, 0⟩ else none

/-- Payload for the C1 counterexample: a create command whose datetime field
parses to a past leap-day instant. -/
def payloadC1 : Payload :=
  ⟨some "create", some "встреча", some "2024-02-29T10:00", none, none⟩

/-- Observation instant for the C1 counterexample. -/
def nowC1 : DT := ⟨2025, 1, 15, 0, 0, 0⟩

/-- C1: the claim asserts that every past-or-present timestamp field gets the
future correction (year advanced to the current year, or to the next year, or
one day added).  For the field 2024-02-29T10:00 observed on 2025-01-15 the
parsed year 2024 is in the past, but advancing it to 2025 lands on the
nonexistent date 2025-02-29, so the internal ValueError makes the validator
reject the whole payload instead of producing a corrected command. -/
theorem C1_counterexample :
    parseIsoC1 "2024-02-29T10:00" = some ⟨2024, 2, 29, 10, 0, 0⟩
    ∧ DT.leb ⟨2024, 2, 29, 10, 0, 0⟩ nowC1 = true
    ∧ validate_and_parse_json parseIsoC1 nowC1 payloadC1 = none := by
  refine ⟨by rfl, by decide, by rfl⟩

/-- C1 (amended): the future correction applied by the validator to each of
the two timestamp fields.  Part one: a field value that is present, non-empty
and parses to an instant not strictly in the future is corrected exactly as in
the source: a past year is advanced to the current year and, if the result is
still not in the future, to the next year, each advance rejecting the field
when the month-day pair does not exist in the target year; an instant with
the current year is advanced by exactly one day; the corrected value is
written back in isoformat.  Part two: on every payload that passes the
command and event checks, the validator is exactly the field validation
applied to the datetime field and then to the new_datetime field, with a
failure of either rejecting the payload; so the correction of part one
reaches both fields, also when both carry past instants. -/
theorem C1_validator_future_correction (parseIso : String → Option DT)
    (now : DT) :
    (∀ (s : String) (dt : DT), s ≠ "" → parseIso s = some dt →
      dt.leb now = true →
      validateField parseIso now (some s) =
        if dt.year < now.year then
          match replaceYear now.year dt with
          | none => none
          | some d1 =>
            if d1.leb now then
              match replaceYear (now.year + 1) d1 with
              | none => none
              | some d2 => some (some (isoformat d2))
            else some (some (isoformat d1))
        else some (some (isoformat (addOneDay dt))))
    ∧ (∀ (p : Payload) (c : String) (dv nv : Option String),
      p.command = some c → c ∈ validCommands →
      (c = "list" ∨ truthyS p.event = true) →
      p.datetime = dv → p.new_datetime = nv →
      validate_and_parse_json parseIso now p =
        match validateField parseIso now dv with
        | none => none
        | some dvr =>
          match validateField parseIso now nv with
          | none => none
          | some nvr => some { p with datetime := dvr, new_datetime := nvr })
    := by
  constructor
  · intro s dt hs hp hpast
    have hvf : validateField parseIso now (some s) =
        match futureCorrect now dt with
        | none => none
        | some d => some (some (isoformat d)) := by
      simp [validateField, hs, hp, hpast]
    rw [hvf]
    by_cases hy : dt.year < now.year
    · cases hr1 : replaceYear now.year dt with
      | none => simp [futureCorrect, hy, hr1]
      | some d1 =>
        by_cases hl : d1.leb now = true
        · cases hr2 : replaceYear (now.year + 1) d1 with
          | none => simp [futureCorrect, hy, hr1, hl, hr2]
          | some d2 => simp [futureCorrect, hy, hr1, hl, hr2]
        · simp [futureCorrect, hy, hr1, hl]
    · simp [futureCorrect, hy]
  · intro p c dv nv hpc hcv hguard hdv hnv
    have hg1 : ¬ (c = "create" ∧ ¬ truthyS p.event) := by
      rcases hguard with h | h
      · subst h
        intro hx
        exact absurd hx.1 (by decide)
      · intro hx
        rw [h] at hx
        exact hx.2 rfl
    have hg2 : ¬ (c ∈ ["delete", "change_time", "change_date",
        "change_description", "change_full"] ∧ ¬ truthyS p.event) := by
      rcases hguard with h | h
      · subst h
        intro hx
        exact absurd hx.1 (by decide)
      · intro hx
        rw [h] at hx
        exact hx.2 rfl
    simp only [validate_and_parse_json, hpc, if_pos hcv, if_neg hg1,
      if_neg hg2, hdv, hnv]

/-- Concrete stand-in for fromisoformat covering the two strings of the C1
witness. -/
def parseIsoW1 : String → Option DT :=
  fun s =>
    if s = "2019-12-31T08:00" then some ⟨2019, 12, 31, 8, 0, 0⟩
    else if s = "2020-05-01T10:00" then some ⟨2020, 5, 1, 10, 0, 0⟩
    else none

/-- C1 witness: the amended statement applied to a concrete change_time
payload carrying past instants in both timestamp fields; the datetime field
needs only the advance to the current year, the new_datetime field needs the
further advance to the next year, and the validator corrects both. -/
theorem C1_witness :
    validate_and_parse_json parseIsoW1 ⟨2025, 6, 15, 12, 0, 0⟩
      ⟨some "change_time", some "встреча", some "2019-12-31T08:00",
       some "2020-05-01T10:00", none⟩
      = some ⟨some "change_time", some "встреча", some "2025-12-31T08:00:00",
          some "2026-05-01T10:00:00", none⟩ := by
  have h := C1_validator_future_correction parseIsoW1 ⟨2025, 6, 15, 12, 0, 0⟩
  have hA := h.1 "2019-12-31T08:00" ⟨2019, 12, 31, 8, 0, 0⟩ (by decide)
    (by decide) (by decide)
  have hB := h.1 "2020-05-01T10:00" ⟨2020, 5, 1, 10, 0, 0⟩ (by decide)
    (by decide) (by decide)
  rw [h.2 ⟨some "change_time", some "встреча", some "2019-12-31T08:00",
       some "2020-05-01T10:00", none⟩ "change_time"
       (some "2019-12-31T08:00") (some "2020-05-01T10:00")
       rfl (by decide) (Or.inr (by decide)) rfl rfl]
  rw [hA, hB]
  decide

/-- Rejection of a payload whose command needs a target event while the event
field is falsy: helper for the C7 theorem. -/
theorem validate_none_of_event_falsy (parseIso : String → Option DT) (now : DT)
    (p : Payload) (c : String) (hpc : p.command = some c)
    (hcv : c ∈ validCommands) (hcl : c ≠ "list")
    (hevf : truthyS p.event = false) :
    validate_and_parse_json parseIso now p = none := by
  by_cases hcr : c = "create"
  · have hcond : (c = "create" ∧ ¬ truthyS p.event) := by
      refine ⟨hcr, ?_⟩
      rw [hevf]
      simp
    simp only [validate_and_parse_json, hpc, if_pos hcv, if_pos hcond]
  · have hmem : c ∈ ["delete", "change_time", "change_date",
        "change_description", "change_full"] := by
      simp only [validCommands, List.mem_cons, List.mem_singleton] at hcv
      rcases hcv with h|h|h|h|h|h|h
      · exact absurd h hcr
      · simp [h]
      · simp [h]
      · simp [h]
      · simp [h]
      · simp [h]
      · rcases h with h | h
        · exact absurd h hcl
        · simp at h
    have hcond1 : ¬ (c = "create" ∧ ¬ truthyS p.event) := fun hx => hcr hx.1
    have hcond2 : (c ∈ ["delete", "change_time", "change_date",
        "change_description", "change_full"] ∧ ¬ truthyS p.event) := by
      refine ⟨hmem, ?_⟩
      rw [hevf]
      simp
    simp only [validate_and_parse_json, hpc, if_pos hcv, if_neg hcond1,
      if_pos hcond2]

/-- C7: the validator rejects every payload whose command is missing or not in
the valid command list, and every payload whose command is not list while the
target-event field is missing or empty. -/
theorem C7_validator_rejections (parseIso : String → Option DT) (now : DT)
    (p : Payload) :
    ((∀ c, p.command = some c → c ∉ validCommands) →
      validate_and_parse_json parseIso now p = none)
    ∧ (p.command ≠ some "list" → (p.event = none ∨ p.event = some "") →
      validate_and_parse_json parseIso now p = none) := by
  constructor
  · intro h
    cases hpc : p.command with
    | none => simp [validate_and_parse_json, hpc]
    | some c =>
      have hnc : c ∉ validCommands := h c hpc
      simp [validate_and_parse_json, hpc, hnc]
  · intro hlist hev
    have hevf : truthyS p.event = false := by
      rcases hev with h | h <;> rw [h] <;> rfl
    cases hpc : p.command with
    | none => simp [validate_and_parse_json, hpc]
    | some c =>
      by_cases hcv : c ∈ validCommands
      · have hcl : c ≠ "list" := fun he => hlist (he ▸ hpc)
        exact validate_none_of_event_falsy parseIso now p c hpc hcv hcl hevf
      · simp [validate_and_parse_json, hpc, hcv]

/-- C7 witness: the rejection statement applied to a concrete unknown command
and to a concrete delete command with a missing event field. -/
theorem C7_witness :
    validate_and_parse_json (fun _ => none) ⟨2025, 1, 1, 0, 0, 0⟩
      ⟨some "explode", some "x", none, none, none⟩ = none
    ∧ validate_and_parse_json (fun _ => none) ⟨2025, 1, 1, 0, 0, 0⟩
      ⟨some "delete", none, none, none, none⟩ = none := by
  constructor
  · exact (C7_validator_rejections (fun _ => none) ⟨2025, 1, 1, 0, 0, 0⟩
      ⟨some "explode", some "x", none, none, none⟩).1
      (fun c hc => by
        injection hc with hc1
        subst hc1
        decide)
  · exact (C7_validator_rejections (fun _ => none) ⟨2025, 1, 1, 0, 0, 0⟩
      ⟨some "delete", none, none, none, none⟩).2
      (by intro h; injection h with h1; exact absurd h1 (by decide))
      (Or.inl rfl)

/-- Row of the events table (main.py lines 66 to 75).  The scheduled instant
is an integer number of minutes on a global timeline, which is all the
scheduler arithmetic of the source uses. -/
structure DbEvent where
  id : Nat
  user_id : Nat
  description : String
  scheduled_at : Int
deriving DecidableEq

/-- Row of the notifications table (main.py lines 77 to 86). -/
structure DbNotification where
  id : Nat
  event_id : Nat
  notification_minutes : Nat
  is_sent : Bool
deriving DecidableEq

/-- Combined state of the durable store and of the apscheduler job registry.
A job is a pair of the owning notification identity (the job id string
notification_N determines and is determined by N) and its run instant. -/
structure BotState where
  events : List DbEvent
  notifications : List DbNotification
  jobs : List (Nat × Int)
deriving DecidableEq

/-- Lookup of an event row by primary key. -/
def findEvent (es : List DbEvent) (eid : Nat) : Option DbEvent :=
  es.find? (fun e => e.id == eid)

/-- Fire instant of a notification for its event: scheduled_at minus the lead
minutes, the datetime(e.scheduled_at, ...) expression of the SQL query. -/
def fireAt (e : DbEvent) (n : DbNotification) : Int :=
  e.scheduled_at - (n.notification_minutes : Int)

/-- Removal of the scheduler job with the given id; removing an absent job is
a no-op, matching the try/except remove_job idiom of the source. -/
def removeJob (js : List (Nat × Int)) (i : Nat) : List (Nat × Int) :=
  js.filter (fun j => j.1 != i)

/-- Registration of a job under an id, as scheduler.add_job. -/
def addJob (js : List (Nat × Int)) (i : Nat) (t : Int) : List (Nat × Int) :=
  js ++ [(i, t)]

/-- Result set of the SQL query of schedule_notifications (main.py lines 398
to 411): every unsent notification joined with its event whose fire instant is
strictly after now, as pairs of notification id and fire instant. -/
def dueQuery (st : BotState) (now : Int) : List (Nat × Int) :=
  st.notifications.filterMap (fun n =>
    if n.is_sent then none
    else
      match findEvent st.events n.event_id with
      | none => none
      | some e => if now < fireAt e n then some (n.id, fireAt e n) else none)

/-- One iteration of the scheduling loop: drop the existing job under the
notification key, then register the fresh one (main.py lines 417 to 430). -/
def schedStep (js : List (Nat × Int)) (p : Nat × Int) : List (Nat × Int) :=
  addJob (removeJob js p.1) p.1 p.2

/-- Model of schedule_notifications (main.py lines 393 to 434): for every row
of the due query, the existing job under the notification key is removed and a
fresh job is registered at the fire instant. -/
def schedule_notifications (now : Int) (st : BotState) : BotState :=
  { st with jobs := (dueQuery st now).foldl schedStep st.jobs }

/-- Model of the change_time branch of handle_event_text (main.py lines 915 to
932): the jobs of every notification of the matched event are removed, the
scheduled instant is updated, and schedule_notifications is run again. -/
def applyChangeTime (now : Int) (st : BotState) (eid : Nat) (newDt : Int) :
    BotState :=
  let evNotifs := st.notifications.filter (fun n => n.event_id == eid)
  let jobs1 := evNotifs.foldl (fun js n => removeJob js n.id) st.jobs
  let events1 := st.events.map
    (fun e => if e.id == eid then { e with scheduled_at := newDt } else e)
  schedule_notifications now { st with events := events1, jobs := jobs1 }

/-- Re-read of the event and notification pair at fire time, the SQL query of
send_notification (main.py lines 482 to 490). -/
def lookupPair (st : BotState) (eid nid : Nat) :
    Option (DbEvent × DbNotification) :=
  match findEvent st.events eid with
  | none => none
  | some e =>
    match st.notifications.find? (fun n => n.id == nid && n.event_id == eid)
    with
    | none => none
    | some n => some (e, n)

/-- The UPDATE that marks a notification sent (main.py lines 518 to 521). -/
def markSent (st : BotState) (nid : Nat) : BotState :=
  { st with
    notifications := st.notifications.map
      (fun n => if n.id == nid then { n with is_sent := true } else n) }

/-- Model of send_notification (main.py lines 477 to 528).  The parameter
deliveryOk tells whether the outbound bot.send_message call succeeds; when it
raises, the surrounding except clause swallows the error before the sent flag
is ever written, so the state is returned unchanged.  Totality of this
function models that no failure escapes the handler. -/
def send_notification (deliveryOk : Bool) (st : BotState) (eid nid : Nat) :
    BotState :=
  match lookupPair st eid nid with
  | none => st
  | some _ => if deliveryOk then markSent st nid else st

/-- Number of active jobs registered under a notification key. -/
def countId (js : List (Nat × Int)) (i : Nat) : Nat :=
  (js.filter (fun j => j.1 == i)).length

/-- A job surviving the removal loop over a set of notifications was already
present and its key is none of the removed ones. -/
theorem mem_foldl_removeJob :
    ∀ (lns : List DbNotification) (js : List (Nat × Int)) (p : Nat × Int),
      p ∈ lns.foldl (fun js n => removeJob js n.id) js →
      p ∈ js ∧ ∀ n ∈ lns, p.1 ≠ n.id := by
  intro lns
  induction lns with
  | nil => intro js p hp; exact ⟨hp, by simp⟩
  | cons n rest ih =>
    intro js p hp
    simp only [List.foldl_cons] at hp
    obtain ⟨hmem, hall⟩ := ih _ _ hp
    have hmem' := List.mem_filter.mp hmem
    refine ⟨hmem'.1, ?_⟩
    intro m hm
    rcases List.mem_cons.mp hm with h | h
    · subst h
      simpa using hmem'.2
    · exact hall m h

/-- A job present after the scheduling fold was present before or is one of
the fold rows. -/
theorem mem_foldl_schedStep :
    ∀ (l : List (Nat × Int)) (js : List (Nat × Int)) (p : Nat × Int),
      p ∈ l.foldl schedStep js → p ∈ js ∨ p ∈ l := by
  intro l
  induction l with
  | nil => intro js p hp; exact Or.inl hp
  | cons q rest ih =>
    intro js p hp
    simp only [List.foldl_cons] at hp
    rcases ih _ _ hp with h | h
    · rcases List.mem_append.mp h with h1 | h1
      · exact Or.inl (List.mem_filter.mp h1).1
      · simp only [List.mem_singleton] at h1
        exact Or.inr (h1 ▸ List.mem_cons_self _ _)
    · exact Or.inr (List.mem_cons_of_mem _ h)

/-- A job whose key is absent from the remaining fold rows survives the fold
untouched. -/
theorem mem_foldl_schedStep_preserved :
    ∀ (l : List (Nat × Int)) (js : List (Nat × Int)) (p : Nat × Int),
      p ∈ js → p.1 ∉ l.map Prod.fst → p ∈ l.foldl schedStep js := by
  intro l
  induction l with
  | nil => intro js p hp _; exact hp
  | cons q rest ih =>
    intro js p hp hni
    simp only [List.map_cons, List.mem_cons, not_or] at hni
    simp only [List.foldl_cons]
    refine ih _ _ ?_ (by
      intro hx
      exact hni.2 hx)
    refine List.mem_append_left _ ?_
    refine List.mem_filter.mpr ⟨hp, ?_⟩
    simpa using hni.1

/-- Every fold row with a key unique among the rows ends up in the fold
result. -/
theorem mem_foldl_schedStep_of_mem :
    ∀ (l : List (Nat × Int)) (js : List (Nat × Int)) (p : Nat × Int),
      (l.map Prod.fst).Nodup → p ∈ l → p ∈ l.foldl schedStep js := by
  intro l
  induction l with
  | nil => intro js p _ hp; exact absurd hp (by simp)
  | cons q rest ih =>
    intro js p hnd hp
    simp only [List.map_cons, List.nodup_cons] at hnd
    simp only [List.foldl_cons]
    rcases List.mem_cons.mp hp with h | h
    · subst h
      refine mem_foldl_schedStep_preserved rest _ p ?_ hnd.1
      exact List.mem_append_right _ (List.mem_singleton.mpr rfl)
    · exact ih _ _ hnd.2 h

/-- A scheduling step leaves the job count of every other key unchanged. -/
theorem countId_schedStep_ne (js : List (Nat × Int)) (q : Nat × Int) (i : Nat)
    (h : i ≠ q.1) : countId (schedStep js q) i = countId js i := by
  unfold countId schedStep addJob removeJob
  rw [List.filter_append, List.filter_filter]
  have h1 : List.filter (fun j => j.1 == i) [(q.1, q.2)] = [] := by
    simp [Ne.symm h]
  have h2 : ∀ j : Nat × Int, ((j.1 == i) && (j.1 != q.1)) = (j.1 == i) := by
    intro j
    by_cases hj : j.1 = i
    · simp [hj, h]
    · simp [hj]
  rw [List.filter_congr (fun j _ => h2 j)]
  simp [h1]

/-- A scheduling step leaves exactly one job under its own key. -/
theorem countId_schedStep_self (js : List (Nat × Int)) (q : Nat × Int) :
    countId (schedStep js q) q.1 = 1 := by
  unfold countId schedStep addJob removeJob
  rw [List.filter_append, List.filter_filter]
  have h2 : ∀ j : Nat × Int, ((j.1 == q.1) && (j.1 != q.1)) = false := by
    intro j
    by_cases hj : j.1 = q.1
    · simp [hj]
    · simp [hj]
  rw [List.filter_congr (fun j _ => h2 j)]
  simp

/-- Fold rows never touch the job count of keys outside the rows. -/
theorem countId_foldl_not_mem :
    ∀ (l : List (Nat × Int)) (js : List (Nat × Int)) (i : Nat),
      i ∉ l.map Prod.fst → countId (l.foldl schedStep js) i = countId js i := by
  intro l
  induction l with
  | nil => intro js i _; rfl
  | cons q rest ih =>
    intro js i hni
    simp only [List.map_cons, List.mem_cons, not_or] at hni
    simp only [List.foldl_cons]
    rw [ih _ _ hni.2, countId_schedStep_ne _ _ _ hni.1]

/-- After the fold, every key occurring once among the rows carries exactly
one job, whatever jobs were registered before. -/
theorem countId_foldl_mem :
    ∀ (l : List (Nat × Int)) (js : List (Nat × Int)) (i : Nat),
      (l.map Prod.fst).Nodup → i ∈ l.map Prod.fst →
      countId (l.foldl schedStep js) i = 1 := by
  intro l
  induction l with
  | nil => intro js i _ hi; exact absurd hi (by simp)
  | cons q rest ih =>
    intro js i hnd hi
    simp only [List.map_cons, List.nodup_cons] at hnd
    simp only [List.foldl_cons]
    rcases List.mem_cons.mp hi with h | h
    · subst h
      rw [countId_foldl_not_mem _ _ _ hnd.1, countId_schedStep_self]
    · exact ih _ _ hnd.2 h

/-- The keys of the due query rows form a sublist of the notification ids, so
they are distinct whenever the table ids are. -/
theorem dueQuery_fst_sublist (st : BotState) (now : Int) :
    ((dueQuery st now).map Prod.fst).Sublist
      (st.notifications.map DbNotification.id) := by
  unfold dueQuery
  induction st.notifications with
  | nil => simp
  | cons n rest ih =>
    simp only [List.filterMap_cons, List.map_cons]
    by_cases hs : n.is_sent
    · rw [if_pos hs]
      exact ih.cons _
    · rw [if_neg hs]
      cases hfe : findEvent st.events n.event_id with
      | none =>
        dsimp only
        exact ih.cons _
      | some e =>
        dsimp only
        by_cases hf : now < fireAt e n
        · rw [if_pos hf]
          dsimp only
          simpa using ih.cons₂ n.id
        · rw [if_neg hf]
          dsimp only
          exact ih.cons _

/-- An eligible notification row appears in the due query with its fire
instant. -/
theorem mem_dueQuery_intro (st : BotState) (now : Int) (n : DbNotification)
    (e : DbEvent) (hn : n ∈ st.notifications) (hs : n.is_sent = false)
    (hfe : findEvent st.events n.event_id = some e) (hf : now < fireAt e n) :
    (n.id, fireAt e n) ∈ dueQuery st now := by
  unfold dueQuery
  refine List.mem_filterMap.mpr ⟨n, hn, ?_⟩
  simp [hs, hfe, hf]

/-- Every due query row comes from an unsent notification with a joined event
and a future fire instant. -/
theorem mem_dueQuery_elim (st : BotState) (now : Int) (i : Nat) (t : Int)
    (h : (i, t) ∈ dueQuery st now) :
    ∃ m ∈ st.notifications, m.id = i ∧ m.is_sent = false ∧
      ∃ e, findEvent st.events m.event_id = some e ∧ t = fireAt e m ∧
        now < t := by
  unfold dueQuery at h
  obtain ⟨m, hm, hfm⟩ := List.mem_filterMap.mp h
  by_cases hs : m.is_sent
  · rw [if_pos hs] at hfm
    exact absurd hfm (by simp)
  · rw [if_neg hs] at hfm
    cases hfe : findEvent st.events m.event_id with
    | none => simp [hfe] at hfm
    | some e =>
      simp only [hfe] at hfm
      by_cases hf : now < fireAt e m
      · rw [if_pos hf] at hfm
        injection hfm with hpair
        injection hpair with h1 h2
        exact ⟨m, hm, h1, by simpa using hs, e, hfe, h2.symm, h2 ▸ hf⟩
      · rw [if_neg hf] at hfm
        exact absurd hfm (by simp)

/-- Updating the scheduled instant of an event by id commutes with the lookup
by that id. -/
theorem findEvent_update (es : List DbEvent) (eid : Nat) (newDt : Int)
    (e : DbEvent) (he : findEvent es eid = some e) :
    findEvent
      (es.map (fun x => if x.id == eid then { x with scheduled_at := newDt }
                        else x)) eid
      = some { e with scheduled_at := newDt } := by
  induction es with
  | nil => simp [findEvent] at he
  | cons x rest ih =>
    by_cases hx : x.id = eid
    · have hex : e = x := by
        unfold findEvent at he
        rw [List.find?_cons_of_pos _ (by simp [hx])] at he
        injection he with h1
        exact h1.symm
      have hx2 : (if x.id == eid then { x with scheduled_at := newDt }
          else x) = { x with scheduled_at := newDt } := by
        simp [hx]
      unfold findEvent
      rw [List.map_cons, hx2, List.find?_cons_of_pos _ (by simp [hx]), hex]
    · have hrest : findEvent rest eid = some e := by
        unfold findEvent at he
        rw [List.find?_cons_of_neg _ (by simp [hx])] at he
        exact he
      have hx2 : (if x.id == eid then { x with scheduled_at := newDt }
          else x) = x := by
        simp [hx]
      unfold findEvent
      rw [List.map_cons, hx2, List.find?_cons_of_neg _ (by simp [hx])]
      exact ih hrest

/-- Rescheduling core: on a state whose job registry holds no job for a
notification, running schedule_notifications leaves every job of that
notification at the fire instant of the joined event, and registers it when
eligible. -/
theorem sched_fresh (st1 : BotState) (now : Int) (n : DbNotification)
    (newE : DbEvent)
    (hnd : (st1.notifications.map DbNotification.id).Nodup)
    (hn : n ∈ st1.notifications)
    (hfind : findEvent st1.events n.event_id = some newE)
    (hclean : ∀ t : Int, (n.id, t) ∉ st1.jobs) :
    (∀ t : Int, (n.id, t) ∈ (schedule_notifications now st1).jobs →
        t = fireAt newE n)
    ∧ (n.is_sent = false → now < fireAt newE n →
        (n.id, fireAt newE n) ∈ (schedule_notifications now st1).jobs) := by
  constructor
  · intro t ht
    have ht' : (n.id, t) ∈ (dueQuery st1 now).foldl schedStep st1.jobs := ht
    rcases mem_foldl_schedStep _ _ _ ht' with hin | hin
    · exact absurd hin (hclean t)
    · obtain ⟨m, hm, hmid, hms, e', hfe', ht2, _⟩ :=
        mem_dueQuery_elim st1 now n.id t hin
      have hmn : m = n := List.inj_on_of_nodup_map hnd hm hn hmid
      subst hmn
      rw [hfind] at hfe'
      injection hfe' with h1
      rw [ht2, h1]
  · intro hs hf
    have hdue : (n.id, fireAt newE n) ∈ dueQuery st1 now :=
      mem_dueQuery_intro st1 now n newE hn hs hfind hf
    have hnodup : ((dueQuery st1 now).map Prod.fst).Nodup :=
      (dueQuery_fst_sublist st1 now).nodup hnd
    exact mem_foldl_schedStep_of_mem _ _ _ hnodup hdue

/-- C2: when a change command moves an event to a new instant, every job of
each of its notifications is cancelled and recreated against the new instant:
afterwards a job of such a notification can only run at the new fire instant,
no job remains at the pre-change fire instant, and every still eligible
notification (unsent, new fire instant ahead) is freshly registered. -/
theorem C2_reschedule_invariant (now : Int) (st : BotState) (eid : Nat)
    (newDt : Int) (n : DbNotification) (e : DbEvent)
    (hnd : (st.notifications.map DbNotification.id).Nodup)
    (hn : n ∈ st.notifications) (hne : n.event_id = eid)
    (he : findEvent st.events eid = some e) (hchg : newDt ≠ e.scheduled_at) :
    (∀ t : Int, (n.id, t) ∈ (applyChangeTime now st eid newDt).jobs →
        t = newDt - (n.notification_minutes : Int))
    ∧ (n.id, e.scheduled_at - (n.notification_minutes : Int)) ∉
        (applyChangeTime now st eid newDt).jobs
    ∧ (n.is_sent = false → now < newDt - (n.notification_minutes : Int) →
        (n.id, newDt - (n.notification_minutes : Int)) ∈
          (applyChangeTime now st eid newDt).jobs) := by
  have hclean : ∀ t : Int, (n.id, t) ∉
      (st.notifications.filter (fun m => m.event_id == eid)).foldl
        (fun js m => removeJob js m.id) st.jobs := by
    intro t hmem
    obtain ⟨_, hall⟩ := mem_foldl_removeJob _ _ _ hmem
    exact hall n (List.mem_filter.mpr ⟨hn, by simp [hne]⟩) rfl
  have hfind : findEvent
      (st.events.map (fun x => if x.id == eid then
        { x with scheduled_at := newDt } else x)) n.event_id
      = some { e with scheduled_at := newDt } := by
    rw [hne]
    exact findEvent_update st.events eid newDt e he
  have hmain := sched_fresh
    ⟨st.events.map (fun x => if x.id == eid then
        { x with scheduled_at := newDt } else x),
     st.notifications,
     (st.notifications.filter (fun m => m.event_id == eid)).foldl
       (fun js m => removeJob js m.id) st.jobs⟩
    now n { e with scheduled_at := newDt } hnd hn hfind hclean
  have heq : applyChangeTime now st eid newDt = schedule_notifications now
    ⟨st.events.map (fun x => if x.id == eid then
        { x with scheduled_at := newDt } else x),
     st.notifications,
     (st.notifications.filter (fun m => m.event_id == eid)).foldl
       (fun js m => removeJob js m.id) st.jobs⟩ := rfl
  rw [heq]
  refine ⟨?_, ?_, ?_⟩
  · intro t ht
    have := hmain.1 t ht
    simpa [fireAt] using this
  · intro hmem
    have := hmain.1 _ hmem
    simp [fireAt] at this
    exact hchg (by omega)
  · intro hs hf
    have := hmain.2 hs (by simpa [fireAt] using hf)
    simpa [fireAt] using this

/-- C2 witness: the reschedule invariant applied to a concrete state with one
event at instant 1000 carrying one 15 minute notification; after the change to
instant 2000 the job sits at the new fire instant and no job remains at the
old one. -/
theorem C2_witness :
    (((1 : Nat), (2000 : Int) - ((15 : Nat) : Int)) ∈
      (applyChangeTime 0
        ⟨[⟨1, 7, "встреча", 1000⟩], [⟨1, 1, 15, false⟩], [(1, 985)]⟩
        1 2000).jobs)
    ∧ (((1 : Nat), (1000 : Int) - ((15 : Nat) : Int)) ∉
      (applyChangeTime 0
        ⟨[⟨1, 7, "встреча", 1000⟩], [⟨1, 1, 15, false⟩], [(1, 985)]⟩
        1 2000).jobs) := by
  have h := C2_reschedule_invariant 0
    ⟨[⟨1, 7, "встреча", 1000⟩], [⟨1, 1, 15, false⟩], [(1, 985)]⟩
    1 2000 ⟨1, 1, 15, false⟩ ⟨1, 7, "встреча", 1000⟩
    (by decide) (by decide) rfl (by decide) (by decide)
  exact ⟨h.2.2 rfl (by decide), h.2.1⟩

/-- C3: after running schedule_notifications twice on an unchanged store,
every notification that is unsent, joined to an existing event and whose fire
instant is still ahead carries exactly one registered job; re-registration
under an existing key replaces rather than duplicates. -/
theorem C3_scheduleAll_idempotent (st : BotState) (now : Int)
    (n : DbNotification) (e : DbEvent)
    (hnd : (st.notifications.map DbNotification.id).Nodup)
    (hn : n ∈ st.notifications)
    (he : findEvent st.events n.event_id = some e)
    (hs : n.is_sent = false) (hf : now < fireAt e n) :
    countId (schedule_notifications now (schedule_notifications now st)).jobs
      n.id = 1 := by
  have hdue : (n.id, fireAt e n) ∈ dueQuery st now :=
    mem_dueQuery_intro st now n e hn hs he hf
  have hnodup : ((dueQuery st now).map Prod.fst).Nodup :=
    (dueQuery_fst_sublist st now).nodup hnd
  have hid : n.id ∈ (dueQuery st now).map Prod.fst :=
    List.mem_map.mpr ⟨(n.id, fireAt e n), hdue, rfl⟩
  have hexp : (schedule_notifications now (schedule_notifications now st)).jobs
      = (dueQuery st now).foldl schedStep
          (schedule_notifications now st).jobs := rfl
  rw [hexp]
  exact countId_foldl_mem _ _ _ hnodup hid

/-- C3 witness: a doubled scheduling pass on a one-event, one-notification
store leaves exactly one job for the notification. -/
theorem C3_witness :
    countId (schedule_notifications 0 (schedule_notifications 0
      ⟨[⟨1, 7, "звонок", 100⟩], [⟨1, 1, 15, false⟩], []⟩)).jobs 1 = 1 :=
  C3_scheduleAll_idempotent ⟨[⟨1, 7, "звонок", 100⟩], [⟨1, 1, 15, false⟩], []⟩
    0 ⟨1, 1, 15, false⟩ ⟨1, 7, "звонок", 100⟩ (by decide) (by decide) rfl rfl
    (by decide)

/-- C4: the claim asserts that on successful or attempted delivery the
notification is marked sent.  In the code the exception of a failed
bot.send_message jumps over the UPDATE, so an attempted but failed delivery
leaves the notification unsent: with the pair present and delivery failing,
the state, including the false sent flag, is unchanged. -/
theorem C4_counterexample :
    lookupPair ⟨[⟨1, 7, "врач", 500⟩], [⟨1, 1, 30, false⟩], []⟩ 1 1
      = some (⟨1, 7, "врач", 500⟩, ⟨1, 1, 30, false⟩)
    ∧ send_notification false
        ⟨[⟨1, 7, "врач", 500⟩], [⟨1, 1, 30, false⟩], []⟩ 1 1
      = ⟨[⟨1, 7, "врач", 500⟩], [⟨1, 1, 30, false⟩], []⟩ := by
  constructor <;> rfl

/-- C4 (amended): the pair is re-read at fire time from the current store; on
successful delivery the notification is marked sent (exactly the sent flag of
that notification changes); a delivery failure is swallowed and leaves the
store unchanged, with the notification still unsent and nothing retried; a
missing pair changes nothing; the handler is total, so no failure escapes. -/
theorem C4_at_most_once_delivery (st : BotState) (eid nid : Nat) :
    (lookupPair st eid nid ≠ none →
      send_notification true st eid nid = markSent st nid)
    ∧ send_notification false st eid nid = st
    ∧ (lookupPair st eid nid = none →
      ∀ d : Bool, send_notification d st eid nid = st) := by
  refine ⟨?_, ?_, ?_⟩
  · intro h
    unfold send_notification
    cases hl : lookupPair st eid nid with
    | none => exact absurd hl h
    | some pr => rfl
  · unfold send_notification
    cases hl : lookupPair st eid nid with
    | none => rfl
    | some pr => rfl
  · intro h d
    unfold send_notification
    rw [h]

/-- C4 witness: the amended statement applied to the concrete one-pair store,
for a successful and for a failed delivery. -/
theorem C4_witness :
    send_notification true
      ⟨[⟨1, 7, "врач", 500⟩], [⟨1, 1, 30, false⟩], []⟩ 1 1
      = markSent ⟨[⟨1, 7, "врач", 500⟩], [⟨1, 1, 30, false⟩], []⟩ 1
    ∧ send_notification false
      ⟨[⟨1, 7, "врач", 500⟩], [⟨1, 1, 30, false⟩], []⟩ 1 1
      = ⟨[⟨1, 7, "врач", 500⟩], [⟨1, 1, 30, false⟩], []⟩ :=
  ⟨(C4_at_most_once_delivery
      ⟨[⟨1, 7, "врач", 500⟩], [⟨1, 1, 30, false⟩], []⟩ 1 1).1 (by decide),
   (C4_at_most_once_delivery
      ⟨[⟨1, 7, "врач", 500⟩], [⟨1, 1, 30, false⟩], []⟩ 1 1).2.1⟩

/-- Word set of a string: the Python str.lower (modelled by pyLower, covering
the Latin and Cyrillic alphabets of the bot) followed by str.split with no
arguments, which splits on whitespace runs and yields no empty words
(main.py lines 282 and 289). -/
def pyWords (s : String) : List String :=
  ((pyLower s).split Char.isWhitespace).filter (fun w => w != "")

/-- Word-overlap similarity of find_similar_events (main.py lines 289 to 291):
intersection size over the larger word-set size, zero when both word sets are
empty.  Scores are exact rationals in place of Python floats. -/
def wordSim (q d : String) : ℚ :=
  let qw := (pyWords q).toFinset
  let dw := (pyWords d).toFinset
  if qw.card ≠ 0 ∨ dw.card ≠ 0 then
    ((qw ∩ dw).card : ℚ) / (max qw.card dw.card : ℚ)
  else 0

/-- Model of similarity (main.py lines 270 to 272): the SequenceMatcher ratio
of the two lowercased strings, with the library ratio passed in as the
parameter ratioFn. -/
def similarity (ratioFn : String → String → ℚ) (a b : String) : ℚ :=
  ratioFn (pyLower a) (pyLower b)

/-- Ordering by scheduled instant used to sort the matcher result
(main.py line 300). -/
def evLe (a b : DbEvent) : Prop := a.scheduled_at ≤ b.scheduled_at

instance : DecidableRel evLe := fun a b => Int.decLe a.scheduled_at b.scheduled_at

instance : IsTotal DbEvent evLe :=
  ⟨fun a b => Int.le_total a.scheduled_at b.scheduled_at⟩

instance : IsTrans DbEvent evLe := ⟨fun _ _ _ hab hbc => le_trans hab hbc⟩

/-- Model of find_similar_events (main.py lines 274 to 300): events of the
requesting user with a future scheduled instant whose blended score (maximum
of whole-string similarity and word overlap) reaches the threshold, sorted by
scheduled instant.  The Python sorted builtin is a stable comparison sort,
modelled by insertion sort on the same key. -/
def find_similar_events (ratioFn : String → String → ℚ) (now : Int)
    (events : List DbEvent) (uid : Nat) (query : String) (threshold : ℚ) :
    List DbEvent :=
  let cands := events.filter
    (fun e => e.user_id == uid && decide (now < e.scheduled_at))
  let kept := cands.filter
    (fun e => decide (threshold ≤
      max (similarity ratioFn query e.description) (wordSim query e.description)))
  List.insertionSort evLe kept

/-- C5: an event is in the matcher result exactly when it is stored, owned by
the requesting user, scheduled strictly in the future, and the maximum of the
whole-string similarity and the word-overlap score reaches the threshold. -/
theorem C5_fuzzy_membership (ratioFn : String → String → ℚ) (now : Int)
    (events : List DbEvent) (uid : Nat) (query : String) (threshold : ℚ)
    (e : DbEvent) :
    e ∈ find_similar_events ratioFn now events uid query threshold ↔
      (e ∈ events ∧ e.user_id = uid ∧ now < e.scheduled_at ∧
        threshold ≤ max (similarity ratioFn query e.description)
          (wordSim query e.description)) := by
  unfold find_similar_events
  rw [List.mem_insertionSort]
  simp only [List.mem_filter, Bool.and_eq_true, beq_iff_eq, decide_eq_true_eq]
  tauto

/-- C6: the matcher result is ordered ascending by the scheduled instant; in
particular, of two returned events with distinct instants the earlier one
precedes the later one, whatever their similarity scores. -/
theorem C6_result_ordered_by_time (ratioFn : String → String → ℚ) (now : Int)
    (events : List DbEvent) (uid : Nat) (query : String) (threshold : ℚ) :
    List.Pairwise (fun a b => a.scheduled_at ≤ b.scheduled_at)
      (find_similar_events ratioFn now events uid query threshold) :=
  List.sorted_insertionSort evLe _

/-- Pending task of one user (the per-user dictionary entries of
pending_tasks in main.py): the event description, the two need flags marking
which of date and time are still missing, and the optional time, date and
combined datetime strings. -/
structure PendingTask where
  event : String
  need_time : Bool
  need_date : Bool
  timeS : Option String
  dateS : Option String
  datetimeS : Option String
deriving DecidableEq

/-- Update of one entry of the pending task map. -/
def setPending (pending : Nat → Option PendingTask) (u : Nat) (t : Option PendingTask) :
    Nat → Option PendingTask :=
  fun v => if v = u then t else pending v

/-- Effect on the pending task map of dispatching one validated command in
handle_event_text (main.py lines 828 to 971).  Only the create branch touches
pending_tasks: without a datetime it stores a task needing both date and time
(lines 836 to 840), with a datetime it stores a task awaiting the
notification choice (lines 849 to 852).  The delete, change and list branches
operate on the store and scheduler only and never mention pending_tasks. -/
def pendingAfterCommand (pending : Nat → Option PendingTask) (u : Nat)
    (p : Payload) : Nat → Option PendingTask :=
  match p.command with
  | some c =>
    if c = "create" then
      if ¬ truthyS p.datetime then
        setPending pending u (some
          { event := p.event.getD "", need_time := true, need_date := true,
            timeS := none, dateS := none, datetimeS := none })
      else
        setPending pending u (some
          { event := p.event.getD "", need_time := false, need_date := false,
            timeS := none, dateS := none, datetimeS := p.datetime })
    else pending
  | none => pending

/-- Model of handle_cancel (main.py lines 634 to 644): the pending task of the
cancelling user is dropped. -/
def handle_cancel (pending : Nat → Option PendingTask) (u : Nat) :
    Nat → Option PendingTask :=
  setPending pending u none

/-- The callback data split of handle_notification_selection
(main.py line 538): element one of the underscore split. -/
def extractNotifType (data : String) : Option String :=
  ((charSplit '_' data.toList).map (fun l => String.mk l))[1]?

/-- Lead minutes of the NOTIFICATION_OPTIONS table (main.py lines 55 to 63). -/
def notifMinutes : String → Option Nat
  | "5min" => some 5
  | "15min" => some 15
  | "30min" => some 30
  | "1hour" => some 60
  | "2hour" => some 120
  | "1day" => some 1440
  | "no_notification" => some 0
  | _ => none

/-- Model of create_event_with_notification (main.py lines 365 to 391): the
event row is inserted, and a notification row only for a positive lead. -/
def create_event_with_notification (st : BotState) (uid : Nat) (desc : String)
    (sched : Int) (mins : Nat) (newEid newNid : Nat) : BotState :=
  let st1 := { st with events := st.events ++ [⟨newEid, uid, desc, sched⟩] }
  if mins > 0 then
    { st1 with
      notifications := st1.notifications ++ [⟨newNid, newEid, mins, false⟩] }
  else st1

/-- Model of handle_notification_selection (main.py lines 531 to 583): with a
pending task holding a datetime and a recognised option key, the event and
optional notification are created, schedule_notifications runs, and the
pending task is cleared; otherwise nothing changes.  The parameter parse
stands for fromisoformat on the stored datetime string. -/
def handleNotificationSelection (parse : String → Option Int)
    (pending : Nat → Option PendingTask) (u : Nat) (data : String) (st : BotState)
    (newEid newNid : Nat) (now : Int) : (Nat → Option PendingTask) × BotState :=
  match pending u with
  | none => (pending, st)
  | some t =>
    match extractNotifType data with
    | none => (pending, st)
    | some ntype =>
      match notifMinutes ntype, t.datetimeS with
      | some mins, some d =>
        (match parse d with
         | none => (pending, st)
         | some sched =>
           (setPending pending u none,
            schedule_notifications now
              (create_event_with_notification st u t.event sched mins newEid
                newNid)))
      | _, _ => (pending, st)

/-- C9: the claim asserts that any new top-level command overwrites the
pending task.  In the code only the create branch writes pending_tasks: here a
user with a pending task sends a valid delete command, and the old pending
task is still there afterwards, not overwritten. -/
theorem C9_counterexample :
    pendingAfterCommand
      (setPending (fun _ => none) 7
        (some ⟨"звонок", false, false, none, none, some "2025-09-01T10:00"⟩))
      7 ⟨some "delete", some "встреча", none, none, none⟩ 7
      = some ⟨"звонок", false, false, none, none, some "2025-09-01T10:00"⟩ :=
  rfl

/-- C9 (amended): the pending map is keyed by user and only the entry of the
acting user ever changes; a top-level create command overwrites that user
entry (with a task needing date and time, or one awaiting the notification
choice); every other command kind leaves the map untouched; explicit
cancellation clears the entry; and completing event creation through the
notification choice clears it as well. -/
theorem C9_pending_task_lifecycle (pending : Nat → Option PendingTask)
    (u : Nat) (p : Payload) :
    (∀ c, p.command = some c → c ≠ "create" →
      pendingAfterCommand pending u p = pending)
    ∧ (p.command = some "create" → truthyS p.datetime = false →
      pendingAfterCommand pending u p u = some
        ⟨p.event.getD "", true, true, none, none, none⟩)
    ∧ (p.command = some "create" → truthyS p.datetime = true →
      pendingAfterCommand pending u p u = some
        ⟨p.event.getD "", false, false, none, none, p.datetime⟩)
    ∧ (∀ v, v ≠ u → pendingAfterCommand pending u p v = pending v)
    ∧ handle_cancel pending u u = none
    ∧ (∀ v, v ≠ u → handle_cancel pending u v = pending v)
    ∧ (∀ (parse : String → Option Int) (data ntype : String) (st : BotState)
        (neid nnid : Nat) (now : Int) (t : PendingTask) (d : String) (x : Int)
        (mins : Nat),
        pending u = some t → extractNotifType data = some ntype →
        notifMinutes ntype = some mins → t.datetimeS = some d →
        parse d = some x →
        (handleNotificationSelection parse pending u data st neid nnid now).1 u
          = none) := by
  refine ⟨?_, ?_, ?_, ?_, ?_, ?_, ?_⟩
  · intro c hc hcr
    simp [pendingAfterCommand, hc, hcr]
  · intro hc hdt
    simp [pendingAfterCommand, hc, hdt, setPending]
  · intro hc hdt
    simp [pendingAfterCommand, hc, hdt, setPending]
  · intro v hv
    cases hpc : p.command with
    | none => simp [pendingAfterCommand, hpc]
    | some c =>
      by_cases hcr : c = "create"
      · subst hcr
        by_cases hdt : truthyS p.datetime <;>
          simp [pendingAfterCommand, hpc, hdt, setPending, hv]
      · simp [pendingAfterCommand, hpc, hcr]
  · simp [handle_cancel, setPending]
  · intro v hv
    simp [handle_cancel, setPending, hv]
  · intro parse data ntype st neid nnid now t d x mins h1 h2 h3 h4 h5
    simp [handleNotificationSelection, h1, h2, h3, h4, h5, setPending]

/-- C9 witness: the amended lifecycle statement at concrete inputs: a create
command overwrites the pending entry, cancellation clears it, and a completed
notification choice clears it. -/
theorem C9_witness :
    pendingAfterCommand
      (setPending (fun _ => none) 7
        (some ⟨"звонок", false, false, none, none, some "2025-09-01T10:00"⟩))
      7 ⟨some "create", some "встреча", some "2025-10-01T09:00", none, none⟩ 7
      = some ⟨"встреча", false, false, none, none, some "2025-10-01T09:00"⟩
    ∧ handle_cancel
      (setPending (fun _ => none) 7
        (some ⟨"звонок", false, false, none, none, some "2025-09-01T10:00"⟩))
      7 7 = none
    ∧ (handleNotificationSelection (fun _ => some 100)
        (setPending (fun _ => none) 7
          (some ⟨"звонок", false, false, none, none, some "2025-09-01T10:00"⟩))
        7 "notify_15min" ⟨[], [], []⟩ 1 1 0).1 7 = none := by
  refine ⟨?_, ?_, ?_⟩
  · exact (C9_pending_task_lifecycle
      (setPending (fun _ => none) 7
        (some ⟨"звонок", false, false, none, none, some "2025-09-01T10:00"⟩))
      7 ⟨some "create", some "встреча", some "2025-10-01T09:00", none,
        none⟩).2.2.1 rfl (by decide)
  · exact (C9_pending_task_lifecycle
      (setPending (fun _ => none) 7
        (some ⟨"звонок", false, false, none, none, some "2025-09-01T10:00"⟩))
      7 ⟨some "create", some "встреча", some "2025-10-01T09:00", none,
        none⟩).2.2.2.2.1
  · exact (C9_pending_task_lifecycle
      (setPending (fun _ => none) 7
        (some ⟨"звонок", false, false, none, none, some "2025-09-01T10:00"⟩))
      7 ⟨some "create", some "встреча", some "2025-10-01T09:00", none,
        none⟩).2.2.2.2.2.2 (fun _ => some 100) "notify_15min" "15min"
      ⟨[], [], []⟩ 1 1 0
      ⟨"звонок", false, false, none, none, some "2025-09-01T10:00"⟩
      "2025-09-01T10:00" 100 15 rfl (by decide) rfl rfl rfl
